import Mathlib

/-!
Verification of the `visited.ListSet` data structure from
`adapters/repos/db/vector/hnsw/visited/list_set.go`.

The Go type is `type ListSet struct { set []uint8 }` where `set[0]` is
reserved for the epoch marker and `set[i+1]` is the visitation stamp of
node `i`.  We embed the slice as a `List Nat` whose values are kept below
256 by the operations themselves (all writes store either `0`, `1`, the
current marker, or the marker incremented modulo 256).  `uint64`
arithmetic from the source (`uint64(len(l.set)) - 1`, `node + 1024`,
`node + 1`) is modelled on `Nat` with an explicit modulus `2 ^ 64`.
Operations that can panic in Go (out-of-range slice indexing on a freed
or wrap-truncated set) return `Option`, `none` being the panic.
-/

/-- The modulus of Go's `uint64` type. -/
def u64 : Nat := 2 ^ 64

/-- Embedding of the Go struct `ListSet { set []uint8 }`.  `set.get 0` is the
marker; `set.get (i+1)` is the stamp of node `i`.  A `nil` slice is `[]`. -/
structure ListSet where
  set : List Nat
deriving DecidableEq, Repr

/-- Go source: `func (l ListSet) Len() uint64 { return uint64(len(l.set)) - 1 }`.
The subtraction is `uint64` subtraction, which wraps on a `nil` slice. -/
def ListSet.Len (l : ListSet) : Nat := (l.set.length + (u64 - 1)) % u64

/-- Go source: `func (l *ListSet) Free() { l.set = nil }`. -/
def ListSet.Free (_l : ListSet) : ListSet := ⟨[]⟩

/-- Go source: `NewList(size int)` makes a zeroed slice of length `size+1`
and sets `set[0] = 1`. -/
def NewList (size : Nat) : ListSet := ⟨(List.replicate (size + 1) 0).set 0 1⟩

/-- Go's `copy(dst, src)` for `[]uint8` slices: copies
`min (len dst) (len src)` elements of `src` over the front of `dst`,
leaving the rest of `dst` unchanged. -/
def goCopy (dst src : List Nat) : List Nat :=
  src.take dst.length ++ dst.drop src.length

/-- Go source of `Visit`:
```
func (l *ListSet) Visit(node uint64) {
    if node >= l.Len() { // resize
        newset := make([]uint8, node+1024)
        copy(newset, l.set)
        l.set = newset
    }
    l.set[node+1] = l.set[0]
}
```
`node + 1024` and `node + 1` are `uint64` additions, hence the `% u64`.
The indexing assignment `l.set[node+1] = l.set[0]` panics (`none`) when
`node+1` is out of range of the (possibly resized) slice. -/
def ListSet.Visit (l : ListSet) (node : Nat) : Option ListSet :=
  let s := if l.Len ≤ node then goCopy (List.replicate ((node + 1024) % u64) 0) l.set
           else l.set
  let idx := (node + 1) % u64
  if idx < s.length then some ⟨s.set idx (s.getD 0 0)⟩ else none

/-- Go source: `return node < l.Len() && l.set[node+1] == l.set[0]`.
The `&&` short-circuits, so the indexing is only evaluated (and can only
panic, `none`) when `node < l.Len()`. -/
def ListSet.Visited (l : ListSet) (node : Nat) : Option Bool :=
  if node < l.Len then
    if (node + 1) % u64 < l.set.length then
      some (decide (l.set.getD ((node + 1) % u64) 0 = l.set.getD 0 0))
    else none
  else some false

/-- Go source of `Reset`:
```
func (l *ListSet) Reset() {
    l.set[0]++
    if l.set[0] == 0 { // if overflowed
        for i := range l.set { l.set[i] = 0 }
        l.set[0] = 1 // restart counting
    }
}
```
`l.set[0]++` is `uint8` arithmetic (`% 256`) and panics on a freed set. -/
def ListSet.Reset (l : ListSet) : Option ListSet :=
  if 0 < l.set.length then
    let m := (l.set.getD 0 0 + 1) % 256
    if m = 0 then some ⟨(List.replicate l.set.length 0).set 0 1⟩
    else some ⟨l.set.set 0 m⟩
  else none

/-- The epoch marker `set[0]` (0 if the set was freed). -/
def ListSet.marker (l : ListSet) : Nat := l.set.getD 0 0

/-- `l.Reset` iterated `k` times, propagating a panic. -/
def resetN (l : ListSet) : Nat → Option ListSet
  | 0 => some l
  | k + 1 => (resetN l k).bind ListSet.Reset

/-- States reachable from a constructor call by successful `Visit` and
`Reset` calls (`size` ranges over Go's non-negative `int` values, `node`
over `uint64` values). -/
inductive Reachable : ListSet → Prop where
  | new : ∀ size, size < 2 ^ 63 → Reachable (NewList size)
  | visit : ∀ l l' node, Reachable l → node < u64 → l.Visit node = some l' →
      Reachable l'
  | reset : ∀ l l', Reachable l → l.Reset = some l' → Reachable l'

/-- The state invariant maintained by every live (non-freed) `ListSet`:
the backing slice is non-empty and of Go-representable length, the marker
is a nonzero `uint8`, and every stamp is at most the marker. -/
def LSInv (l : ListSet) : Prop :=
  0 < l.set.length ∧ l.set.length < u64 ∧ 1 ≤ l.marker ∧ l.marker < 256 ∧
    ∀ i, 0 < i → i < l.set.length → l.set.getD i 0 ≤ l.marker

set_option maxRecDepth 100000

/-! ### Basic toolkit lemmas -/

lemma u64_pos : 0 < u64 := by norm_num [u64]

lemma u64_val : u64 = 18446744073709551616 := by norm_num [u64]

lemma Len_eq (l : ListSet) (h1 : 0 < l.set.length) (h2 : l.set.length < u64) :
    l.Len = l.set.length - 1 := by
  unfold ListSet.Len
  have h : l.set.length + (u64 - 1) = (l.set.length - 1) + 1 * u64 := by
    have := u64_pos; omega
  rw [h, Nat.add_mul_mod_self_right]
  exact Nat.mod_eq_of_lt (by omega)

lemma Len_lt (l : ListSet) (h1 : 0 < l.set.length) (h2 : l.set.length < u64) :
    l.Len < u64 - 1 := by
  rw [Len_eq l h1 h2]; omega

lemma getD_set_self (L : List Nat) (i v : Nat) (h : i < L.length) :
    (L.set i v).getD i 0 = v := by
  rw [List.getD_eq_getElem?_getD, List.getElem?_set_self h]; rfl

lemma getD_set_ne (L : List Nat) (i j v : Nat) (h : i ≠ j) :
    (L.set i v).getD j 0 = L.getD j 0 := by
  rw [List.getD_eq_getElem?_getD, List.getElem?_set_ne h, ← List.getD_eq_getElem?_getD]

lemma getD_append_left (L M : List Nat) (i : Nat) (h : i < L.length) :
    (L ++ M).getD i 0 = L.getD i 0 := by
  rw [List.getD_eq_getElem?_getD, List.getElem?_append, if_pos h,
    ← List.getD_eq_getElem?_getD]

lemma getD_append_right (L M : List Nat) (i : Nat) (h : L.length ≤ i) :
    (L ++ M).getD i 0 = M.getD (i - L.length) 0 := by
  rw [List.getD_eq_getElem?_getD, List.getElem?_append_right h,
    ← List.getD_eq_getElem?_getD]

lemma getD_replicate (n i : Nat) : (List.replicate n (0 : Nat)).getD i 0 = 0 := by
  rw [List.getD_eq_getElem?_getD, List.getElem?_replicate]
  split <;> rfl

lemma getD_take (L : List Nat) (n i : Nat) (h : i < n) :
    (L.take n).getD i 0 = L.getD i 0 := by
  rw [List.getD_eq_getElem?_getD, List.getElem?_take, if_pos h,
    ← List.getD_eq_getElem?_getD]

lemma goCopy_replicate (src : List Nat) (n : Nat) :
    goCopy (List.replicate n 0) src = src.take n ++ List.replicate (n - src.length) 0 := by
  unfold goCopy
  rw [List.length_replicate, List.drop_replicate]

/-! ### Branch lemmas for `Visit` and `Reset` -/

/-- In-range visit: no resize, the stamp of `node` is set to the marker. -/
lemma visit_small (l : ListSet) (node : Nat) (h1 : 0 < l.set.length)
    (h2 : l.set.length < u64) (h : node < l.Len) :
    l.Visit node = some ⟨l.set.set (node + 1) (l.set.getD 0 0)⟩ := by
  have hlen := Len_eq l h1 h2
  have hmod : (node + 1) % u64 = node + 1 := Nat.mod_eq_of_lt (by omega)
  simp only [ListSet.Visit]
  rw [if_neg (show ¬ l.Len ≤ node by omega), hmod,
    if_pos (show node + 1 < l.set.length by omega)]

/-- Out-of-range visit without `uint64` wraparound: the slice grows to
`node + 1024`, old stamps are copied, new slots are zero. -/
lemma visit_grow (l : ListSet) (node : Nat) (h1 : 0 < l.set.length)
    (h2 : l.set.length < u64) (hge : l.Len ≤ node) (hlt : node + 1024 < u64) :
    l.Visit node = some ⟨(l.set ++ List.replicate (node + 1024 - l.set.length) 0).set
      (node + 1) (l.set.getD 0 0)⟩ := by
  have hlen := Len_eq l h1 h2
  have hsle : l.set.length ≤ node + 1024 := by omega
  have hm1 : (node + 1024) % u64 = node + 1024 := Nat.mod_eq_of_lt hlt
  have hm2 : (node + 1) % u64 = node + 1 := Nat.mod_eq_of_lt (by omega)
  simp only [ListSet.Visit]
  rw [if_pos hge, hm1, hm2, goCopy_replicate, List.take_of_length_le hsle]
  have hlen2 : (l.set ++ List.replicate (node + 1024 - l.set.length) 0).length
      = node + 1024 := by
    rw [List.length_append, List.length_replicate]; omega
  have hcond : node + 1 < (l.set ++ List.replicate (node + 1024 - l.set.length) 0).length := by
    rw [hlen2]; omega
  rw [if_pos hcond, getD_append_left _ _ 0 h1]

/-- Visit of the largest `uint64` node id: `node + 1024` wraps to `1023`,
so the slice is rebuilt at length 1023 (truncating a longer one) and the
index `node + 1` wraps to `0`, rewriting the marker with itself. -/
lemma visit_wrap (l : ListSet) (h1 : 0 < l.set.length) (h2 : l.set.length < u64) :
    l.Visit (u64 - 1) =
      some ⟨(l.set.take 1023 ++ List.replicate (1023 - l.set.length) 0).set 0
        (l.set.getD 0 0)⟩ := by
  have hge : l.Len ≤ u64 - 1 := by
    have := Len_lt l h1 h2; omega
  have hm1 : (u64 - 1 + 1024) % u64 = 1023 := by
    have h : u64 - 1 + 1024 = 1023 + 1 * u64 := by have := u64_pos; norm_num [u64]
    rw [h, Nat.add_mul_mod_self_right]
    exact Nat.mod_eq_of_lt (by norm_num [u64])
  have hm2 : (u64 - 1 + 1) % u64 = 0 := by
    have h : u64 - 1 + 1 = u64 := by have := u64_pos; omega
    rw [h, Nat.mod_self]
  simp only [ListSet.Visit]
  rw [if_pos hge, hm1, hm2, goCopy_replicate]
  have hlen2 : (l.set.take 1023 ++ List.replicate (1023 - l.set.length) 0).length
      = 1023 := by
    rw [List.length_append, List.length_take, List.length_replicate, Nat.min_def]
    split <;> omega
  have hcond : 0 < (l.set.take 1023 ++ List.replicate (1023 - l.set.length) 0).length := by
    rw [hlen2]; norm_num
  rw [if_pos hcond]
  have hmarker : (l.set.take 1023 ++ List.replicate (1023 - l.set.length) 0).getD 0 0
      = l.set.getD 0 0 := by
    rw [getD_append_left, getD_take]
    · norm_num
    · rw [List.length_take, Nat.min_def]; split <;> omega
  rw [hmarker]

/-- Visit of a near-maximal node id other than `u64 - 1`: the wrapped
resize produces a slice of length at most 1023 while the write index
`node + 1` does not wrap, so the indexing panics. -/
lemma visit_none_high (l : ListSet) (node : Nat) (h2 : l.set.length < u64)
    (hLen : l.Len ≤ node) (hge : u64 - 1024 ≤ node) (hlt : node < u64 - 1) :
    l.Visit node = none := by
  have hu := u64_val
  have hm1 : (node + 1024) % u64 = node + 1024 - u64 := by
    rw [Nat.mod_eq_sub_mod (by omega)]
    exact Nat.mod_eq_of_lt (by omega)
  have hm2 : (node + 1) % u64 = node + 1 := Nat.mod_eq_of_lt (by omega)
  simp only [ListSet.Visit]
  rw [if_pos hLen, hm1, hm2, goCopy_replicate]
  have hlen2 : (l.set.take (node + 1024 - u64) ++
      List.replicate (node + 1024 - u64 - l.set.length) 0).length = node + 1024 - u64 := by
    rw [List.length_append, List.length_take, List.length_replicate, Nat.min_def]
    split <;> omega
  have hcond : ¬ (node + 1 < (l.set.take (node + 1024 - u64) ++
      List.replicate (node + 1024 - u64 - l.set.length) 0).length) := by
    rw [hlen2]
    have := u64_val
    omega
  rw [if_neg hcond]

/-- Non-overflow reset: only the marker cell changes. -/
lemma reset_no_overflow (l : ListSet) (h1 : 0 < l.set.length)
    (hm : (l.marker + 1) % 256 ≠ 0) :
    l.Reset = some ⟨l.set.set 0 ((l.marker + 1) % 256)⟩ := by
  simp only [ListSet.Reset, ListSet.marker] at hm ⊢
  rw [if_pos h1, if_neg hm]

/-- Overflow reset: the whole slice is zeroed and the marker restarts at 1. -/
lemma reset_overflow (l : ListSet) (h1 : 0 < l.set.length)
    (hm : (l.marker + 1) % 256 = 0) :
    l.Reset = some ⟨(List.replicate l.set.length 0).set 0 1⟩ := by
  simp only [ListSet.Reset, ListSet.marker] at hm ⊢
  rw [if_pos h1, if_pos hm]

/-! ### Characterization of `Visited` -/

/-- A node id at or beyond the capacity is reported unvisited, with no
slice access at all. -/
lemma visited_of_ge (l : ListSet) (n : Nat) (h : l.Len ≤ n) :
    l.Visited n = some false := by
  simp only [ListSet.Visited]
  rw [if_neg (by omega)]

/-- An in-range query compares the stored stamp with the marker. -/
lemma visited_of_lt (l : ListSet) (n : Nat) (h1 : 0 < l.set.length)
    (h2 : l.set.length < u64) (h : n < l.Len) :
    l.Visited n = some (decide (l.set.getD (n + 1) 0 = l.set.getD 0 0)) := by
  have hlen := Len_eq l h1 h2
  have hmod : (n + 1) % u64 = n + 1 := Nat.mod_eq_of_lt (by omega)
  simp only [ListSet.Visited]
  rw [if_pos h, hmod, if_pos (by omega)]

/-! ### Shape lemmas for the truncating resize -/

lemma length_padTrunc (L : List Nat) (n : Nat) :
    (L.take n ++ List.replicate (n - L.length) 0).length = n := by
  rw [List.length_append, List.length_take, List.length_replicate, Nat.min_def]
  split <;> omega

lemma getD_padTrunc_lt (L : List Nat) (n i : Nat) (hi : i < n) (hiL : i < L.length) :
    (L.take n ++ List.replicate (n - L.length) 0).getD i 0 = L.getD i 0 := by
  have hlt : i < (L.take n).length := by
    rw [List.length_take, Nat.min_def]; split <;> omega
  rw [getD_append_left _ _ _ hlt, getD_take L n i hi]

lemma getD_padTrunc_ge (L : List Nat) (n i : Nat) (hiL : L.length ≤ i) :
    (L.take n ++ List.replicate (n - L.length) 0).getD i 0 = 0 := by
  have hge : (L.take n).length ≤ i := by
    rw [List.length_take, Nat.min_def]; split <;> omega
  rw [getD_append_right _ _ _ hge]
  exact getD_replicate _ _

/-! ### The invariant and its preservation -/

lemma length_newlist (size : Nat) : (NewList size).set.length = size + 1 := by
  simp [NewList]

lemma marker_newlist (size : Nat) : (NewList size).marker = 1 := by
  simp only [NewList, ListSet.marker]
  exact getD_set_self _ 0 1 (by simp)

lemma stamp_newlist (size i : Nat) (h0 : 0 < i) :
    (NewList size).set.getD i 0 = 0 := by
  simp only [NewList]
  rw [getD_set_ne _ _ _ _ (by omega)]
  exact getD_replicate _ _

lemma inv_new (size : Nat) (h : size < 2 ^ 63) : LSInv (NewList size) := by
  have hu := u64_val
  refine ⟨by rw [length_newlist]; omega, by rw [length_newlist]; omega, ?_, ?_, ?_⟩
  · rw [marker_newlist]
  · rw [marker_newlist]; norm_num
  · intro i h0 _
    rw [stamp_newlist size i h0, marker_newlist]
    norm_num

lemma inv_visit (l l' : ListSet) (node : Nat) (hinv : LSInv l) (hn : node < u64)
    (hv : l.Visit node = some l') : LSInv l' := by
  obtain ⟨h1, h2, hm1, hm256, hst⟩ := hinv
  have hlen := Len_eq l h1 h2
  have hmk : l.set.getD 0 0 = l.marker := rfl
  by_cases hlt : node < l.Len
  · rw [visit_small l node h1 h2 hlt] at hv
    simp only [Option.some.injEq] at hv
    subst hv
    have hmk' : (⟨l.set.set (node + 1) (l.set.getD 0 0)⟩ : ListSet).marker = l.marker := by
      simp only [ListSet.marker]
      rw [getD_set_ne _ _ _ _ (by omega)]
    refine ⟨by simpa using h1, by simpa using h2, by rw [hmk']; exact hm1,
      by rw [hmk']; exact hm256, ?_⟩
    intro i h0 hilen
    simp only at hilen ⊢
    rw [List.length_set] at hilen
    rw [hmk']
    by_cases hie : node + 1 = i
    · subst hie
      rw [getD_set_self _ _ _ (by omega), hmk]
    · rw [getD_set_ne _ _ _ _ hie]
      exact hst i h0 hilen
  · have hge : l.Len ≤ node := by omega
    by_cases hbig : node + 1024 < u64
    · rw [visit_grow l node h1 h2 hge hbig] at hv
      simp only [Option.some.injEq] at hv
      subst hv
      have hA : (l.set ++ List.replicate (node + 1024 - l.set.length) 0).length
          = node + 1024 := by
        rw [List.length_append, List.length_replicate]; omega
      have hmk' : (⟨(l.set ++ List.replicate (node + 1024 - l.set.length) 0).set
          (node + 1) (l.set.getD 0 0)⟩ : ListSet).marker = l.marker := by
        simp only [ListSet.marker]
        rw [getD_set_ne _ _ _ _ (by omega), getD_append_left _ _ 0 h1]
      refine ⟨?_, ?_, by rw [hmk']; exact hm1, by rw [hmk']; exact hm256, ?_⟩
      · simp only [List.length_set]
        rw [hA]; omega
      · simp only [List.length_set]
        rw [hA]; omega
      · intro i h0 hilen
        simp only [List.length_set] at hilen
        rw [hA] at hilen
        rw [hmk']
        simp only
        by_cases hie : node + 1 = i
        · subst hie
          rw [getD_set_self _ _ _ (by rw [hA]; omega), hmk]
        · rw [getD_set_ne _ _ _ _ hie]
          by_cases hiL : i < l.set.length
          · rw [getD_append_left _ _ _ hiL]
            exact hst i h0 hiL
          · rw [getD_append_right _ _ _ (by omega)]
            rw [getD_replicate]
            exact Nat.zero_le _
    · by_cases htop : node = u64 - 1
      · subst htop
        rw [visit_wrap l h1 h2] at hv
        simp only [Option.some.injEq] at hv
        subst hv
        have hB := length_padTrunc l.set 1023
        have hmk' : (⟨(l.set.take 1023 ++ List.replicate (1023 - l.set.length) 0).set 0
            (l.set.getD 0 0)⟩ : ListSet).marker = l.marker := by
          simp only [ListSet.marker]
          rw [getD_set_self _ _ _ (by rw [hB]; norm_num), hmk]
        refine ⟨?_, ?_, by rw [hmk']; exact hm1, by rw [hmk']; exact hm256, ?_⟩
        · simp only [List.length_set]
          rw [hB]; norm_num
        · simp only [List.length_set]
          rw [hB]
          rw [u64_val]; norm_num
        · intro i h0 hilen
          simp only [List.length_set] at hilen
          rw [hB] at hilen
          rw [hmk']
          simp only
          rw [getD_set_ne _ _ _ _ (by omega)]
          by_cases hiL : i < l.set.length
          · rw [getD_padTrunc_lt _ _ _ hilen hiL]
            exact hst i h0 hiL
          · rw [getD_padTrunc_ge _ _ _ (by omega)]
            exact Nat.zero_le _
      · have hu := u64_val
        rw [visit_none_high l node h2 hge (by omega) (by omega)] at hv
        cases hv

lemma reset_post (l l' : ListSet) (hinv : LSInv l) (hr : l.Reset = some l') :
    LSInv l' ∧ ∀ i, 0 < i → i < l'.set.length → l'.set.getD i 0 < l'.marker := by
  obtain ⟨h1, h2, hm1, hm256, hst⟩ := hinv
  by_cases hov : (l.marker + 1) % 256 = 0
  · rw [reset_overflow l h1 hov] at hr
    simp only [Option.some.injEq] at hr
    subst hr
    have hlen : ((List.replicate l.set.length (0 : Nat)).set 0 1).length
        = l.set.length := by simp
    have hmk : (⟨(List.replicate l.set.length (0 : Nat)).set 0 1⟩ : ListSet).marker
        = 1 := by
      simp only [ListSet.marker]
      exact getD_set_self _ _ _ (by simpa using h1)
    have hstamp : ∀ i, 0 < i →
        ((List.replicate l.set.length (0 : Nat)).set 0 1).getD i 0 = 0 := by
      intro i h0
      rw [getD_set_ne _ _ _ _ (by omega)]
      exact getD_replicate _ _
    refine ⟨⟨?_, ?_, by rw [hmk], by rw [hmk]; norm_num, ?_⟩, ?_⟩
    · simpa using h1
    · simpa using h2
    · intro i h0 _
      simp only
      rw [hstamp i h0, hmk]
      norm_num
    · intro i h0 _
      simp only
      rw [hstamp i h0, hmk]
      norm_num
  · rw [reset_no_overflow l h1 hov] at hr
    simp only [Option.some.injEq] at hr
    subst hr
    have hne : l.marker + 1 ≠ 256 := by
      intro h
      rw [h] at hov
      norm_num at hov
    have hmod : (l.marker + 1) % 256 = l.marker + 1 := Nat.mod_eq_of_lt (by omega)
    have hmk : (⟨l.set.set 0 ((l.marker + 1) % 256)⟩ : ListSet).marker
        = l.marker + 1 := by
      simp only [ListSet.marker]
      rw [getD_set_self _ _ _ h1]
      exact hmod
    refine ⟨⟨by simpa using h1, by simpa using h2, by rw [hmk]; omega,
      by rw [hmk]; omega, ?_⟩, ?_⟩
    · intro i h0 hilen
      simp only [List.length_set] at hilen
      simp only
      rw [hmk, getD_set_ne _ _ _ _ (by omega)]
      have := hst i h0 hilen
      omega
    · intro i h0 hilen
      simp only [List.length_set] at hilen
      simp only
      rw [hmk, getD_set_ne _ _ _ _ (by omega)]
      have := hst i h0 hilen
      omega

lemma reachable_inv (l : ListSet) (h : Reachable l) : LSInv l := by
  induction h with
  | new size hs => exact inv_new size hs
  | visit a a' node _ hn hv ih => exact inv_visit a a' node ih hn hv
  | reset a a' _ hr ih => exact (reset_post a a' ih hr).1

/-- In a state whose stamps are all strictly below the marker, every
query answers `false`. -/
lemma visited_false_of_stamps_lt (l : ListSet) (hinv : LSInv l)
    (hlt : ∀ i, 0 < i → i < l.set.length → l.set.getD i 0 < l.marker) (n : Nat) :
    l.Visited n = some false := by
  obtain ⟨h1, h2, _, _, _⟩ := hinv
  have hlen := Len_eq l h1 h2
  have hmk : l.set.getD 0 0 = l.marker := rfl
  by_cases h : n < l.Len
  · rw [visited_of_lt l n h1 h2 h]
    have hs := hlt (n + 1) (by omega) (by omega)
    simp only [Option.some.injEq, decide_eq_false_iff_not]
    omega
  · exact visited_of_ge l n (by omega)

/-! ### Shared helper lemmas for the main theorems -/

lemma Len_congr (l l2 : ListSet) (h : l2.set.length = l.set.length) : l2.Len = l.Len := by
  unfold ListSet.Len
  rw [h]

/-- A `Visit` on a freed (empty-slice) set with a node id below `2^64 - 1`
takes the non-resize branch (since `Len` underflows to `2^64 - 1`) and
panics on the out-of-range store. -/
lemma visit_none_empty (l : ListSet) (n : Nat) (h0 : l.set.length = 0)
    (hn : n < u64 - 1) : l.Visit n = none := by
  have hu := u64_val
  have hLen : l.Len = u64 - 1 := by
    unfold ListSet.Len
    rw [h0, Nat.zero_add]
    exact Nat.mod_eq_of_lt (by omega)
  simp only [ListSet.Visit]
  rw [if_neg (show ¬ l.Len ≤ n by omega)]
  have hc : ¬ ((n + 1) % u64 < l.set.length) := by
    rw [h0]; omega
  rw [if_neg hc]

/-- After a non-wrapping `Visit n` on a live set, `Visited n` is `true`. -/
lemma visit_visited_self (l : ListSet) (n : Nat) (h1 : 0 < l.set.length)
    (h2 : l.set.length < u64) (hn : n + 1024 < u64) :
    (l.Visit n).bind (fun l2 => l2.Visited n) = some true := by
  have hlen := Len_eq l h1 h2
  by_cases hlt : n < l.Len
  · rw [visit_small l n h1 h2 hlt, Option.some_bind]
    have hL : (⟨l.set.set (n + 1) (l.set.getD 0 0)⟩ : ListSet).Len = l.Len :=
      Len_congr l _ (by simp)
    rw [visited_of_lt _ n (by simpa using h1) (by simpa using h2) (by rw [hL]; exact hlt)]
    simp only [Option.some.injEq, decide_eq_true_eq]
    rw [getD_set_self _ _ _ (by omega), getD_set_ne _ _ _ _ (by omega)]
  · have hge : l.Len ≤ n := by omega
    rw [visit_grow l n h1 h2 hge hn, Option.some_bind]
    have hAlen : ((l.set ++ List.replicate (n + 1024 - l.set.length) 0).set (n + 1)
        (l.set.getD 0 0)).length = n + 1024 := by
      rw [List.length_set, List.length_append, List.length_replicate]; omega
    have h1' : 0 < ((l.set ++ List.replicate (n + 1024 - l.set.length) 0).set (n + 1)
        (l.set.getD 0 0)).length := by rw [hAlen]; omega
    have h2' : ((l.set ++ List.replicate (n + 1024 - l.set.length) 0).set (n + 1)
        (l.set.getD 0 0)).length < u64 := by rw [hAlen]; omega
    have h3' : n < (⟨(l.set ++ List.replicate (n + 1024 - l.set.length) 0).set (n + 1)
        (l.set.getD 0 0)⟩ : ListSet).Len := by
      rw [Len_eq _ h1' h2']
      simp only
      rw [hAlen]; omega
    rw [visited_of_lt _ n h1' h2' h3']
    simp only [Option.some.injEq, decide_eq_true_eq]
    rw [getD_set_self _ _ _ (by rw [List.length_append, List.length_replicate]; omega),
      getD_set_ne _ _ _ _ (by omega), getD_append_left _ _ 0 h1]

/-- A non-wrapping `Visit n` on a live set with nonzero marker does not
change the answer of `Visited m` for any other `uint64` node id `m`. -/
lemma visit_frame_aux (l l' : ListSet) (n m : Nat) (h1 : 0 < l.set.length)
    (h2 : l.set.length < u64) (hmk1 : 1 ≤ l.marker) (hnm : n ≠ m)
    (hn : n + 1024 < u64) (hv : l.Visit n = some l') :
    l'.Visited m = l.Visited m := by
  have hlen := Len_eq l h1 h2
  have hmk : l.set.getD 0 0 = l.marker := rfl
  by_cases hlt : n < l.Len
  · rw [visit_small l n h1 h2 hlt] at hv
    simp only [Option.some.injEq] at hv
    subst hv
    have hL : (⟨l.set.set (n + 1) (l.set.getD 0 0)⟩ : ListSet).Len = l.Len :=
      Len_congr l _ (by simp)
    by_cases hmlt : m < l.Len
    · rw [visited_of_lt _ m (by simpa using h1) (by simpa using h2) (by rw [hL]; exact hmlt),
        visited_of_lt l m h1 h2 hmlt]
      simp only
      rw [getD_set_ne _ _ _ _ (show n + 1 ≠ m + 1 by omega),
        getD_set_ne _ _ _ _ (show n + 1 ≠ 0 by omega)]
    · rw [visited_of_ge _ m (by rw [hL]; omega), visited_of_ge l m (by omega)]
  · have hge : l.Len ≤ n := by omega
    rw [visit_grow l n h1 h2 hge hn] at hv
    simp only [Option.some.injEq] at hv
    subst hv
    have hAlen : ((l.set ++ List.replicate (n + 1024 - l.set.length) 0).set (n + 1)
        (l.set.getD 0 0)).length = n + 1024 := by
      rw [List.length_set, List.length_append, List.length_replicate]; omega
    have h1' : 0 < ((l.set ++ List.replicate (n + 1024 - l.set.length) 0).set (n + 1)
        (l.set.getD 0 0)).length := by rw [hAlen]; omega
    have h2' : ((l.set ++ List.replicate (n + 1024 - l.set.length) 0).set (n + 1)
        (l.set.getD 0 0)).length < u64 := by rw [hAlen]; omega
    have hL : (⟨(l.set ++ List.replicate (n + 1024 - l.set.length) 0).set (n + 1)
        (l.set.getD 0 0)⟩ : ListSet).Len = n + 1023 := by
      rw [Len_eq _ h1' h2']
      simp only
      rw [hAlen]
      omega
    by_cases hmlt : m < l.Len
    · rw [visited_of_lt _ m h1' h2' (by rw [hL]; omega), visited_of_lt l m h1 h2 hmlt]
      simp only
      rw [getD_set_ne _ _ _ _ (show n + 1 ≠ m + 1 by omega),
        getD_append_left _ _ _ (show m + 1 < l.set.length by omega),
        getD_set_ne _ _ _ _ (show n + 1 ≠ 0 by omega),
        getD_append_left _ _ 0 h1]
    · rw [visited_of_ge l m (by omega)]
      by_cases hmlt' : m < n + 1023
      · rw [visited_of_lt _ m h1' h2' (by rw [hL]; exact hmlt')]
        simp only
        rw [getD_set_ne _ _ _ _ (show n + 1 ≠ m + 1 by omega),
          getD_append_right _ _ _ (show l.set.length ≤ m + 1 by omega),
          getD_replicate,
          getD_set_ne _ _ _ _ (show n + 1 ≠ 0 by omega),
          getD_append_left _ _ 0 h1]
        simp only [Option.some.injEq, decide_eq_false_iff_not]
        omega
      · rw [visited_of_ge _ m (by rw [hL]; omega)]

/-- Marker evolution of `resetN` from a fresh list: after `k` resets the
marker is `k % 255 + 1` and the slice length is unchanged. -/
lemma resetN_marker (size k : Nat) : ∃ l2, resetN (NewList size) k = some l2 ∧
    l2.set.length = size + 1 ∧ l2.marker = k % 255 + 1 := by
  induction k with
  | zero =>
    exact ⟨NewList size, rfl, length_newlist size, by simp [marker_newlist]⟩
  | succ k ih =>
    obtain ⟨l2, hres, hlen, hmk⟩ := ih
    by_cases hov : k % 255 = 254
    · have hm : (l2.marker + 1) % 256 = 0 := by
        rw [hmk, hov]
      refine ⟨⟨(List.replicate l2.set.length 0).set 0 1⟩, ?_, ?_, ?_⟩
      · simp only [resetN, hres, Option.some_bind]
        exact reset_overflow l2 (by omega) hm
      · simp [hlen]
      · have h255 : (k + 1) % 255 = 0 := by omega
        rw [h255]
        simp only [ListSet.marker]
        exact getD_set_self _ _ _ (by simp only [List.length_replicate]; omega)
    · have hm : (l2.marker + 1) % 256 ≠ 0 := by
        rw [hmk]
        omega
      refine ⟨⟨l2.set.set 0 ((l2.marker + 1) % 256)⟩, ?_, by simp [hlen], ?_⟩
      · simp only [resetN, hres, Option.some_bind]
        exact reset_no_overflow l2 (by omega) hm
      · have hmk' : l2.set.getD 0 0 = k % 255 + 1 := hmk
        simp only [ListSet.marker]
        rw [getD_set_self _ _ _ (by omega), hmk']
        omega

/-! ### C1 -/

/-- C1: for every state reachable by `NewList` followed by any finite
sequence of successful `Visit` and `Reset` calls — including sequences in
which the epoch counter has wrapped around one or more times — immediately
after a call to `Reset`, `Visited n` returns `false` for every node id
`n` (in particular for every `n` below the capacity). -/
theorem reset_clears_visited (l l' : ListSet) (h : Reachable l)
    (hr : l.Reset = some l') (n : Nat) : l'.Visited n = some false := by
  have hinv := reachable_inv l h
  obtain ⟨hinv', hlt⟩ := reset_post l l' hinv hr
  exact visited_false_of_stamps_lt l' hinv' hlt n

/-- C1 witness: a concrete instance of `reset_clears_visited`. -/
theorem reset_clears_visited_witness :
    (⟨[2, 0, 0]⟩ : ListSet).Visited 1 = some false :=
  reset_clears_visited (NewList 2) ⟨[2, 0, 0]⟩ (Reachable.new 2 (by norm_num))
    (by decide) 1

/-! ### C2 -/

/-- C2 counterexample: for the largest `uint64` node id, the resize size
`node + 1024` wraps to 1023, so `Visit (2^64 - 1)` succeeds but the
subsequent `Visited (2^64 - 1)` returns `false`, refuting the claim for
unbounded node ids. -/
theorem visit_top_not_visited :
    ((NewList 4).Visit (2 ^ 64 - 1)).bind (fun l2 => l2.Visited (2 ^ 64 - 1))
      = some false := by decide

/-- C2 (amended): on every live state (non-empty backing slice of
`uint64`-representable length) and every node id `n` whose resize
arithmetic does not wrap (`n + 1024 < 2^64`), `Visit n` succeeds and a
subsequent `Visited n` returns `true`. -/
theorem visit_then_visited (l : ListSet) (n : Nat) (h1 : 0 < l.set.length)
    (h2 : l.set.length < u64) (hn : n + 1024 < u64) :
    (l.Visit n).bind (fun l2 => l2.Visited n) = some true :=
  visit_visited_self l n h1 h2 hn

/-- C2 witness: a concrete instance of `visit_then_visited`. -/
theorem visit_then_visited_witness :
    ((NewList 4).Visit 2).bind (fun l2 => l2.Visited 2) = some true :=
  visit_then_visited (NewList 4) 2 (by decide) (by decide) (by decide)

/-! ### C3 -/

/-- C3 counterexample: `Visit (2^64 - 1)` on a list of capacity 1023
rebuilds the backing slice at the wrapped size 1023, shrinking the
capacity from 1023 to 1022. -/
theorem visit_len_shrinks :
    (NewList 1023).Len = 1023 ∧
      ((NewList 1023).Visit (2 ^ 64 - 1)).map ListSet.Len = some 1022 := by decide

/-- C3 (amended): `Visit` never decreases `Len` for node ids whose resize
arithmetic does not wrap `uint64` (`n + 1024 < 2^64`); over any sequence
of such calls the capacity is monotonically non-decreasing. -/
theorem visit_len_monotone (l l' : ListSet) (n : Nat) (h2 : l.set.length < u64)
    (hn : n + 1024 < u64) (hv : l.Visit n = some l') : l.Len ≤ l'.Len := by
  have hu := u64_val
  by_cases h1 : 0 < l.set.length
  · have hlen := Len_eq l h1 h2
    by_cases hlt : n < l.Len
    · rw [visit_small l n h1 h2 hlt] at hv
      simp only [Option.some.injEq] at hv
      subst hv
      exact (Len_congr l _ (by simp)).ge
    · have hge : l.Len ≤ n := by omega
      rw [visit_grow l n h1 h2 hge hn] at hv
      simp only [Option.some.injEq] at hv
      subst hv
      have hAlen : ((l.set ++ List.replicate (n + 1024 - l.set.length) 0).set (n + 1)
          (l.set.getD 0 0)).length = n + 1024 := by
        rw [List.length_set, List.length_append, List.length_replicate]; omega
      have hL : (⟨(l.set ++ List.replicate (n + 1024 - l.set.length) 0).set (n + 1)
          (l.set.getD 0 0)⟩ : ListSet).Len = n + 1023 := by
        rw [Len_eq _ (by rw [hAlen]; omega) (by rw [hAlen]; omega)]
        have hAlen' : (⟨(l.set ++ List.replicate (n + 1024 - l.set.length) 0).set (n + 1)
            (l.set.getD 0 0)⟩ : ListSet).set.length = n + 1024 := hAlen
        rw [hAlen']
        omega
      rw [hL]
      omega
  · rw [visit_none_empty l n (by omega) (by omega)] at hv
    cases hv

/-- C3 witness: a concrete instance of `visit_len_monotone`. -/
theorem visit_len_monotone_witness :
    (NewList 4).Len ≤ (⟨[1, 0, 0, 1, 0]⟩ : ListSet).Len :=
  visit_len_monotone (NewList 4) ⟨[1, 0, 0, 1, 0]⟩ 2 (by decide) (by decide)
    (by decide)

/-! ### C4 -/

/-- C4 counterexample: visiting node 1022 and then the largest `uint64`
node id changes `Visited 1022` from `true` to `false`, because the
wrapped resize truncates the backing slice. -/
theorem visit_frame_violated :
    ((NewList 1023).Visit 1022).bind (fun l1 => l1.Visited 1022) = some true ∧
      ((NewList 1023).Visit 1022).bind (fun l1 => (l1.Visit (2 ^ 64 - 1)).bind
        (fun l2 => l2.Visited 1022)) = some false := by decide

/-- C4 (amended): on every live state with nonzero marker, for distinct
node ids `n ≠ m` where `n`'s resize arithmetic does not wrap
(`n + 1024 < 2^64`), a successful `Visit n` does not change the result of
`Visited m`: growth copies all prior stamps, zero-fills the new slots and
leaves the marker untouched. -/
theorem visit_preserves_other (l l' : ListSet) (n m : Nat) (h1 : 0 < l.set.length)
    (h2 : l.set.length < u64) (hmk1 : 1 ≤ l.marker) (hnm : n ≠ m)
    (hn : n + 1024 < u64) (hv : l.Visit n = some l') :
    l'.Visited m = l.Visited m :=
  visit_frame_aux l l' n m h1 h2 hmk1 hnm hn hv

/-- C4 witness: a concrete instance of `visit_preserves_other`. -/
theorem visit_preserves_other_witness :
    (⟨[1, 0, 1, 0, 0]⟩ : ListSet).Visited 2 = (NewList 4).Visited 2 :=
  visit_preserves_other (NewList 4) ⟨[1, 0, 1, 0, 0]⟩ 1 2 (by decide) (by decide)
    (by decide) (by decide) (by decide) (by decide)

/-! ### C5 -/

/-- C5: `NewList size` (for any size representable as a non-negative Go
`int`) has capacity `size` and reports every node id — below or beyond
the capacity — as unvisited. -/
theorem newlist_spec (size : Nat) (h : size < 2 ^ 63) :
    (NewList size).Len = size ∧ ∀ n, (NewList size).Visited n = some false := by
  have hu := u64_val
  have hl := length_newlist size
  have hLen : (NewList size).Len = size := by
    rw [Len_eq _ (by omega) (by omega), hl]
    omega
  refine ⟨hLen, fun n => ?_⟩
  by_cases hlt : n < (NewList size).Len
  · rw [visited_of_lt _ n (by omega) (by omega) hlt]
    have hs := stamp_newlist size (n + 1) (by omega)
    have hm : (NewList size).set.getD 0 0 = 1 := marker_newlist size
    simp only [Option.some.injEq, decide_eq_false_iff_not]
    omega
  · exact visited_of_ge _ n (by omega)

/-- C5 witness: a concrete instance of `newlist_spec`. -/
theorem newlist_spec_witness :
    (NewList 4).Len = 4 ∧ (NewList 4).Visited 2 = some false :=
  ⟨(newlist_spec 4 (by norm_num)).1, (newlist_spec 4 (by norm_num)).2 2⟩

/-! ### C6 -/

/-- C6 counterexample: from capacity 7, `Visit (2^64 - 1)` leaves a
capacity of only 1022 (not at least `2^64`), and `Visited (2^64 - 1)`
returns `false` afterwards. -/
theorem visit_growth_top_violated :
    ((NewList 7).Visit (2 ^ 64 - 1)).map
        (fun l2 => decide (2 ^ 64 - 1 + 1 ≤ l2.Len)) = some false ∧
      ((NewList 7).Visit (2 ^ 64 - 1)).bind
        (fun l2 => l2.Visited (2 ^ 64 - 1)) = some false ∧
      (NewList 7).Len ≤ 2 ^ 64 - 1 := by decide

/-- C6 (amended): if `Visit n` is called on a live state with nonzero
marker whose capacity is at most `n`, and `n`'s resize arithmetic does
not wrap (`n + 1024 < 2^64`), then the call succeeds, the new capacity is
`n + 1023` (hence at least `n + 1`), `Visited n` returns `true`, and
`Visited m` stays `false` for every other node id `m` that was reported
unvisited before the call — in particular for the ids that only came into
range through the growth. -/
theorem visit_growth_spec (l : ListSet) (n : Nat) (h1 : 0 < l.set.length)
    (h2 : l.set.length < u64) (hmk1 : 1 ≤ l.marker) (hge : l.Len ≤ n)
    (hn : n + 1024 < u64) :
    (l.Visit n).map ListSet.Len = some (n + 1023) ∧
      (l.Visit n).bind (fun l2 => l2.Visited n) = some true ∧
      ∀ m, m ≠ n → l.Visited m = some false →
        (l.Visit n).bind (fun l2 => l2.Visited m) = some false := by
  have hlen := Len_eq l h1 h2
  have hvg := visit_grow l n h1 h2 hge hn
  have hAlen : ((l.set ++ List.replicate (n + 1024 - l.set.length) 0).set (n + 1)
      (l.set.getD 0 0)).length = n + 1024 := by
    rw [List.length_set, List.length_append, List.length_replicate]; omega
  refine ⟨?_, visit_visited_self l n h1 h2 hn, ?_⟩
  · rw [hvg, Option.map_some']
    rw [Len_eq _ (by rw [hAlen]; omega) (by rw [hAlen]; omega)]
    simp only [Option.some.injEq]
    rw [hAlen]
    omega
  · intro m hmn hbefore
    rw [hvg, Option.some_bind]
    rw [visit_frame_aux l _ n m h1 h2 hmk1 (fun he => hmn he.symm) hn hvg, hbefore]

/-- C6 witness: a concrete instance of `visit_growth_spec` reproducing
scenario B of the spec (initial capacity 4, `visit 10`). -/
theorem visit_growth_spec_witness :
    ((NewList 4).Visit 10).map ListSet.Len = some 1033 ∧
      ((NewList 4).Visit 10).bind (fun l2 => l2.Visited 10) = some true ∧
      ((NewList 4).Visit 10).bind (fun l2 => l2.Visited 3) = some false := by
  have h := visit_growth_spec (NewList 4) 10 (by decide) (by decide) (by decide)
    (by decide) (by decide)
  exact ⟨h.1, h.2.1, h.2.2 3 (by norm_num) (by decide)⟩

/-! ### C7 -/

/-- C7: `Visited n` is a pure function of the state (it is embedded as a
function returning only a `Bool`, and its `Option` value is `some`, i.e.
panic-free, on every live state): it returns `false` whenever
`n ≥ Len` — without touching the slice, so no growth or allocation can
occur on a read — and otherwise returns whether the stored stamp of `n`
equals the current marker. -/
theorem visited_spec (l : ListSet) (n : Nat) (h1 : 0 < l.set.length)
    (h2 : l.set.length < u64) :
    (l.Len ≤ n → l.Visited n = some false) ∧
      (n < l.Len → l.Visited n =
        some (decide (l.set.getD (n + 1) 0 = l.set.getD 0 0))) :=
  ⟨fun h => visited_of_ge l n h, fun h => visited_of_lt l n h1 h2 h⟩

/-- C7 witness: concrete instances of both branches of `visited_spec`. -/
theorem visited_spec_witness :
    (NewList 4).Visited 7 = some false ∧
      (NewList 4).Visited 2 = some (decide ((NewList 4).set.getD 3 0
        = (NewList 4).set.getD 0 0)) :=
  ⟨(visited_spec (NewList 4) 7 (by decide) (by decide)).1 (by decide),
    (visited_spec (NewList 4) 2 (by decide) (by decide)).2 (by decide)⟩

/-! ### C8 -/

/-- C8 counterexample: starting from a fresh set with node 0 visited, the
254 first resets leave the stamp slot untouched, and the 255th reset —
not the 256th — performs the full zeroing (the stamp slot drops to 0 and
the marker restarts at 1). -/
theorem reset_clear_at_255 :
    ((NewList 1).Visit 0).bind (fun l2 => resetN l2 254) = some ⟨[255, 1]⟩ ∧
      ((NewList 1).Visit 0).bind (fun l2 => resetN l2 255) = some ⟨[1, 0]⟩ := by
  decide

/-- C8 (amended): starting from a freshly constructed list, the marker
after `k` resets is `k % 255 + 1`, so the `(k+1)`-st reset takes the
O(capacity) full-zeroing branch (`(marker + 1) % 256 = 0`) exactly when
`k + 1` is a multiple of `255 = 2^8 - 1` — once every `2^width - 1`
consecutive resets, not every `2^width`; every other reset rewrites only
the marker cell `set[0]` and no stamp slot. -/
theorem reset_clear_period (size k : Nat) :
    (resetN (NewList size) k).map ListSet.marker = some (k % 255 + 1) ∧
      (((k % 255 + 1 + 1) % 256 = 0) ↔ (k + 1) % 255 = 0) ∧
      (∀ a b : ListSet, a.Reset = some b → (a.marker + 1) % 256 ≠ 0 →
        b.set = a.set.set 0 ((a.marker + 1) % 256)) := by
  refine ⟨?_, by omega, ?_⟩
  · obtain ⟨l2, hres, _, hmk⟩ := resetN_marker size k
    rw [hres, Option.map_some', hmk]
  · intro a b hr hnov
    by_cases h0 : 0 < a.set.length
    · rw [reset_no_overflow a h0 hnov] at hr
      simp only [Option.some.injEq] at hr
      rw [← hr]
    · simp only [ListSet.Reset] at hr
      rw [if_neg h0] at hr
      cases hr

/-- C8 witness: a concrete instance of `reset_clear_period`: after 254
resets of a fresh list the marker is 255, and a non-overflow `Reset` on a
concrete state rewrites only the marker cell. -/
theorem reset_clear_period_witness :
    (resetN (NewList 1) 254).map ListSet.marker = some (254 % 255 + 1) ∧
      (⟨[3, 5]⟩ : ListSet).set = ([2, 5] : List Nat).set 0
        (((⟨[2, 5]⟩ : ListSet).marker + 1) % 256) :=
  ⟨(reset_clear_period 1 254).1,
    (reset_clear_period 1 254).2.2 ⟨[2, 5]⟩ ⟨[3, 5]⟩ (by decide) (by decide)⟩

/-! ### C9 -/

/-- C9: in every state reachable by `NewList` followed by any sequence of
successful `Visit` and `Reset` calls (`Visited` does not modify the
state, being a function of it), the epoch marker `set[0]` is at least 1
when the operation returns; the transient 0 inside `Reset` is not an
observable state of the embedding. -/
theorem marker_nonzero (l : ListSet) (h : Reachable l) : 1 ≤ l.marker :=
  (reachable_inv l h).2.2.1

/-- C9 witness: a concrete instance of `marker_nonzero`. -/
theorem marker_nonzero_witness : 1 ≤ (NewList 3).marker :=
  marker_nonzero (NewList 3) (Reachable.new 3 (by norm_num))

/-! ### C10 -/

/-- C10: after `Free`, the backing slice is `nil`, and `Len` computes
`uint64(0) - 1`, which underflows to `2^64 - 1` rather than 0. -/
theorem len_after_free (l : ListSet) : l.Free.Len = 2 ^ 64 - 1 := by
  have hu := u64_pos
  simp only [ListSet.Free, ListSet.Len, List.length_nil, Nat.zero_add]
  rw [Nat.mod_eq_of_lt (by omega)]
  rfl

